import Mathlib

/-!
Shallow embedding of the real-time fan-out subsystem of the GUI-Based-IM
chat backend (Go).  The embedded code is the `Broadcaster` room registry
(`Join`, `Leave`, `Publish`) and the `WSHandler` connection-lifecycle
handler, translated from the Go source.

Modelling conventions:
* `primitive.ObjectID` values are represented by their canonical
  (lowercase) 24-character hexadecimal string; `objectIdFromHex` models
  `primitive.ObjectIDFromHex` (length-24 check plus hex decoding, which
  accepts either letter case and is case-insensitive on the result).
* A `*wsClient` pointer is represented by a natural-number identity; the
  mutable state behind the pointer (its `send` channel contents, channel
  capacity, and whether `conn.Close()` has been scheduled) lives in a
  global client store `Sys.client : Nat → ClientSt`.
* The Go map `rooms : map[ObjectID]map[*wsClient]struct{}` is modelled as
  `String → Option (List Nat)`: `none` is "no entry", `some m` is an entry
  whose member set is the (duplicate-free on reachable states) list `m`.
* A buffered channel send in `select { case ch <- e: default: ... }`
  succeeds exactly when the buffer is not full; in this sequential model
  (no concurrently draining writer goroutine) that is
  `queue.length < cap`.
-/

namespace IMGui

/-- The wire event (`type Event struct` in the source): a type tag, the
routing key `conversation_id`, and an opaque payload. -/
structure Event where
  type : String
  conversationId : String
  payload : String
deriving DecidableEq, Repr

/-- The mutable state of one connection endpoint (`wsClient` plus the
state of its resources): user id and conversation id as canonical hex,
the contents of its bounded outbound channel `send` (oldest first), the
channel capacity (32 at allocation in `WSHandler`), and whether closing
its transport has been scheduled. -/
structure ClientSt where
  uid : String
  cid : String
  queue : List Event
  cap : Nat
  closeScheduled : Bool
deriving DecidableEq, Repr

/-- Global state: the broadcaster's room map together with the client
store resolving client identities to their mutable state. -/
@[ext] structure Sys where
  rooms : String → Option (List Nat)
  client : Nat → ClientSt

/-- Hexadecimal digit as accepted by Go's `hex.DecodeString`. -/
def isHexChar (c : Char) : Bool :=
  c.isDigit || ('a' ≤ c && c ≤ 'f') || ('A' ≤ c && c ≤ 'F')

/-- Models `primitive.ObjectIDFromHex`: succeeds exactly on 24-character
hex strings and is case-insensitive, so the result is the lowercase
canonical form. -/
def objectIdFromHex (s : String) : Option String :=
  if s.data.length = 24 && s.data.all isHexChar then
    some (String.mk (s.data.map Char.toLower))
  else none

/-- Pointwise update of the client store. -/
def updClient (f : Nat → ClientSt) (i : Nat) (v : ClientSt) : Nat → ClientSt :=
  fun j => if j = i then v else f j

/-- Pointwise update of the room map (`some` = insert, `none` = delete). -/
def updRoom (f : String → Option (List Nat)) (k : String) (v : Option (List Nat)) :
    String → Option (List Nat) :=
  fun j => if j = k then v else f j

/-- `Broadcaster.Join`: create the room for the client's conversation if
absent, then insert the client into its member set (set insertion: a
repeated join of the same client leaves the set unchanged). -/
def Join (s : Sys) (i : Nat) : Sys :=
  let cid := (s.client i).cid
  let mem := match s.rooms cid with
    | none => ([] : List Nat)
    | some m => m
  { s with rooms := updRoom s.rooms cid (some (if i ∈ mem then mem else mem ++ [i])) }

/-- `Broadcaster.Leave`: if the room for the client's conversation
exists, delete the client from its member set (`delete(m, c)`); if the
set is then empty, delete the room entry itself. -/
def Leave (s : Sys) (i : Nat) : Sys :=
  let cid := (s.client i).cid
  match s.rooms cid with
  | none => s
  | some m =>
    let m' := m.filter fun j => decide ¬(j = i)
    if m' = [] then { s with rooms := updRoom s.rooms cid none }
    else { s with rooms := updRoom s.rooms cid (some m') }

/-- The body of `Publish`'s `for cl := range m` loop: for each member in
turn, attempt a non-blocking enqueue of the event; on success the member
survives with the event appended to its queue, on a full buffer the
member is dropped from the set (`delete(m, cl)`) and closing its
transport is scheduled (`go cl.conn.Close()`).  Returns the surviving
member list and the updated client store. -/
def publishLoop (e : Event) : List Nat → (Nat → ClientSt) → List Nat × (Nat → ClientSt)
  | [], cs => ([], cs)
  | i :: rest, cs =>
    let c := cs i
    if c.queue.length < c.cap then
      let out := publishLoop e rest (updClient cs i { c with queue := c.queue ++ [e] })
      (i :: out.1, out.2)
    else
      publishLoop e rest (updClient cs i { c with closeScheduled := true })

/-- `Broadcaster.Publish`: parse the event's `conversation_id`; on a
parse error return immediately.  Look up the room; an absent room means
ranging over a nil map, i.e. nothing happens.  Otherwise run the fan-out
loop; the room's (in-place mutated) member map keeps its entry in
`rooms` even if the loop emptied it. -/
def Publish (s : Sys) (e : Event) : Sys :=
  match objectIdFromHex e.conversationId with
  | none => s
  | some cid =>
    match s.rooms cid with
    | none => s
    | some mem =>
      let out := publishLoop e mem s.client
      { rooms := updRoom s.rooms cid (some out.1), client := out.2 }

/-- The member list of a conversation's room, `[]` when the entry is
absent. -/
def memOf (s : Sys) (k : String) : List Nat :=
  match s.rooms k with
  | none => []
  | some m => m

/-! ### Basic lemmas about the registry operations -/

theorem updClient_self (f : Nat → ClientSt) (i : Nat) (v : ClientSt) :
    updClient f i v i = v := by
  simp [updClient]

theorem updClient_other (f : Nat → ClientSt) (i j : Nat) (v : ClientSt) (h : j ≠ i) :
    updClient f i v j = f j := by
  simp [updClient, h]

theorem updRoom_self (f : String → Option (List Nat)) (k : String) (v : Option (List Nat)) :
    updRoom f k v k = v := by
  simp [updRoom]

theorem updRoom_other (f : String → Option (List Nat)) (k j : String)
    (v : Option (List Nat)) (h : j ≠ k) : updRoom f k v j = f j := by
  simp [updRoom, h]

theorem updRoom_id (f : String → Option (List Nat)) (k : String) :
    updRoom f k (f k) = f := by
  funext j
  by_cases h : j = k
  · subst h; simp [updRoom]
  · simp [updRoom, h]

theorem Join_client (s : Sys) (i : Nat) : (Join s i).client = s.client := rfl

theorem Leave_client (s : Sys) (i : Nat) : (Leave s i).client = s.client := by
  unfold Leave
  dsimp only
  split
  · rfl
  · split <;> rfl

/-- `Leave` never touches a room other than the one keyed by the
client's conversation id. -/
theorem Leave_rooms_other (s : Sys) (i : Nat) (k : String)
    (hk : k ≠ (s.client i).cid) : (Leave s i).rooms k = s.rooms k := by
  unfold Leave
  dsimp only
  split
  · rfl
  · split <;> simp [updRoom_other _ _ _ _ hk]

/-- `Join` never touches a room other than the one keyed by the client's
conversation id. -/
theorem Join_rooms_other (s : Sys) (i : Nat) (k : String)
    (hk : k ≠ (s.client i).cid) : (Join s i).rooms k = s.rooms k := by
  unfold Join
  dsimp only
  exact updRoom_other _ _ _ _ hk

/-- After `Leave s i`, the room of `i`'s conversation (if still present)
does not contain `i`. -/
theorem Leave_not_mem (s : Sys) (i : Nat) (m' : List Nat)
    (h : (Leave s i).rooms (s.client i).cid = some m') : i ∉ m' := by
  unfold Leave at h
  dsimp only at h
  split at h
  next hnone =>
    rw [hnone] at h
    exact Option.noConfusion h
  next m hm =>
    split at h
    · simp [updRoom_self] at h
    · simp [updRoom_self] at h
      intro hmem
      have := List.of_mem_filter (h ▸ hmem)
      simp at this

/-- When the room is absent, `Leave` is the identity. -/
theorem Leave_noop_none (s : Sys) (i : Nat)
    (h : s.rooms (s.client i).cid = none) : Leave s i = s := by
  unfold Leave
  dsimp only
  split
  · rfl
  next m hm => rw [h] at hm; exact Option.noConfusion hm

/-- When the room exists, does not contain the client, and is nonempty,
`Leave` is the identity. -/
theorem Leave_noop_notmem (s : Sys) (i : Nat) (m : List Nat)
    (h : s.rooms (s.client i).cid = some m) (hi : i ∉ m) (hne : m ≠ []) :
    Leave s i = s := by
  have hf : m.filter (fun j => decide ¬(j = i)) = m := by
    apply List.filter_eq_self.mpr
    intro a ha
    simp
    intro hai
    exact hi (hai ▸ ha)
  unfold Leave
  dsimp only
  split
  next hnone => rfl
  next m2 hm2 =>
    rw [h] at hm2
    have hm2' : m = m2 := Option.some.inj hm2
    subst hm2'
    rw [hf, if_neg hne, ← h, updRoom_id]

/-! ### Lemmas about the publish fan-out loop -/

/-- Clients outside the member list are untouched by the fan-out loop. -/
theorem publishLoop_frame (e : Event) (mem : List Nat) (cs : Nat → ClientSt)
    (j : Nat) (hj : j ∉ mem) : (publishLoop e mem cs).2 j = cs j := by
  induction mem generalizing cs with
  | nil => rfl
  | cons i rest ih =>
    have hji : j ≠ i := fun h => hj (h ▸ List.mem_cons_self i rest)
    have hjr : j ∉ rest := fun h => hj (List.mem_cons_of_mem i h)
    unfold publishLoop
    dsimp only
    split
    · rw [ih _ hjr, updClient_other _ _ _ _ hji]
    · rw [ih _ hjr, updClient_other _ _ _ _ hji]

/-- On a duplicate-free member list, the survivors of the fan-out loop
are exactly the members whose queue had spare capacity at entry. -/
theorem publishLoop_survivors (e : Event) (mem : List Nat) (cs : Nat → ClientSt)
    (hnd : mem.Nodup) :
    (publishLoop e mem cs).1 =
      mem.filter fun i => decide ((cs i).queue.length < (cs i).cap) := by
  induction mem generalizing cs with
  | nil => rfl
  | cons i rest ih =>
    have hir : i ∉ rest := (List.nodup_cons.mp hnd).1
    have hndr : rest.Nodup := (List.nodup_cons.mp hnd).2
    have hcong : ∀ (v : ClientSt),
        rest.filter (fun k => decide (((updClient cs i v) k).queue.length < ((updClient cs i v) k).cap)) =
        rest.filter (fun k => decide ((cs k).queue.length < (cs k).cap)) := by
      intro v
      apply List.filter_congr
      intro x hx
      have hxi : x ≠ i := fun h => hir (h ▸ hx)
      rw [updClient_other _ _ _ _ hxi]
    unfold publishLoop
    dsimp only
    split
    next hcap =>
      rw [List.filter_cons_of_pos (by simpa using hcap), ih _ hndr, hcong]
    next hcap =>
      rw [List.filter_cons_of_neg (by simpa using hcap), ih _ hndr, hcong]

/-- A member with spare queue capacity gets the event appended to its
queue and nothing else about it changes. -/
theorem publishLoop_spare (e : Event) (mem : List Nat) (cs : Nat → ClientSt)
    (hnd : mem.Nodup) (j : Nat) (hj : j ∈ mem)
    (hcap : (cs j).queue.length < (cs j).cap) :
    (publishLoop e mem cs).2 j = { cs j with queue := (cs j).queue ++ [e] } := by
  induction mem generalizing cs with
  | nil => exact absurd hj (List.not_mem_nil j)
  | cons i rest ih =>
    have hir : i ∉ rest := (List.nodup_cons.mp hnd).1
    have hndr : rest.Nodup := (List.nodup_cons.mp hnd).2
    unfold publishLoop
    dsimp only
    by_cases hji : j = i
    · subst hji
      rw [if_pos hcap]
      rw [publishLoop_frame _ _ _ _ hir, updClient_self]
    · have hjr : j ∈ rest := (List.mem_cons.mp hj).resolve_left hji
      split
      · rw [ih _ hndr hjr (by rw [updClient_other _ _ _ _ hji]; exact hcap),
          updClient_other _ _ _ _ hji]
      · rw [ih _ hndr hjr (by rw [updClient_other _ _ _ _ hji]; exact hcap),
          updClient_other _ _ _ _ hji]

/-- A member with a full queue has its transport close scheduled and its
queue left untouched. -/
theorem publishLoop_full (e : Event) (mem : List Nat) (cs : Nat → ClientSt)
    (hnd : mem.Nodup) (j : Nat) (hj : j ∈ mem)
    (hcap : ¬ (cs j).queue.length < (cs j).cap) :
    (publishLoop e mem cs).2 j = { cs j with closeScheduled := true } := by
  induction mem generalizing cs with
  | nil => exact absurd hj (List.not_mem_nil j)
  | cons i rest ih =>
    have hir : i ∉ rest := (List.nodup_cons.mp hnd).1
    have hndr : rest.Nodup := (List.nodup_cons.mp hnd).2
    unfold publishLoop
    dsimp only
    by_cases hji : j = i
    · subst hji
      rw [if_neg hcap]
      rw [publishLoop_frame _ _ _ _ hir, updClient_self]
    · have hjr : j ∈ rest := (List.mem_cons.mp hj).resolve_left hji
      split
      · rw [ih _ hndr hjr (by rw [updClient_other _ _ _ _ hji]; exact hcap),
          updClient_other _ _ _ _ hji]
      · rw [ih _ hndr hjr (by rw [updClient_other _ _ _ _ hji]; exact hcap),
          updClient_other _ _ _ _ hji]

/-- Unfolding `Publish` when the conversation id parses and the room
exists. -/
theorem Publish_eq (s : Sys) (e : Event) (cid : String) (mem : List Nat)
    (hcid : objectIdFromHex e.conversationId = some cid)
    (hroom : s.rooms cid = some mem) :
    Publish s e =
      { rooms := updRoom s.rooms cid (some (publishLoop e mem s.client).1),
        client := (publishLoop e mem s.client).2 } := by
  unfold Publish
  rw [hcid]
  dsimp only
  rw [hroom]

/-! ### Concrete fixtures for witnesses and counterexamples -/

/-- A valid 24-character lowercase hex conversation id. -/
def cHex : String := "0123456789abcdef01234567"

/-- A second, distinct valid conversation id. -/
def dHex : String := "aaaaaaaaaaaaaaaaaaaaaaaa"

/-- A `message.created` event routed to `cHex`. -/
def evA : Event := { type := "message.created", conversationId := cHex, payload := "A" }

/-- A second event routed to `cHex`. -/
def evB : Event := { type := "receipt.updated", conversationId := cHex, payload := "B" }

/-- An event whose conversation id is not valid ObjectID hex. -/
def evBad : Event := { type := "message.created", conversationId := "not-an-objectid", payload := "x" }

/-- A client of room `cHex` whose outbound queue is at capacity. -/
def clientFull : ClientSt :=
  { uid := "u0", cid := cHex, queue := [evB], cap := 1, closeScheduled := false }

/-- A client of room `cHex` with spare queue capacity. -/
def clientSpare : ClientSt :=
  { uid := "u1", cid := cHex, queue := [], cap := 32, closeScheduled := false }

/-- Client store: client 0 is full, all others spare. -/
def envEx : Nat → ClientSt := fun i => if i = 0 then clientFull else clientSpare

/-- State with room `cHex` holding clients 0 and 1. -/
def sysEx : Sys :=
  { rooms := fun k => if k = cHex then some [0, 1] else none, client := envEx }

/-- State with no room at all. -/
def sysEmpty : Sys := { rooms := fun _ => none, client := envEx }

/-! ### Claim theorems -/

/-- Claim C1: when publish finds a joined endpoint whose bounded
outbound queue is full, it removes that endpoint from the room's
membership set within the same publish call and schedules the
endpoint's transport for closure, while every member with spare queue
capacity stays in the room and receives the event appended to its
queue. -/
theorem publish_slow_consumer_eviction (s : Sys) (e : Event) (cid : String)
    (mem : List Nat)
    (hcid : objectIdFromHex e.conversationId = some cid)
    (hroom : s.rooms cid = some mem) (hnd : mem.Nodup) :
    (Publish s e).rooms cid =
      some (mem.filter fun k => decide ((s.client k).queue.length < (s.client k).cap)) ∧
    (∀ i ∈ mem, ¬ (s.client i).queue.length < (s.client i).cap →
        ((Publish s e).client i).closeScheduled = true ∧
        i ∉ mem.filter fun k => decide ((s.client k).queue.length < (s.client k).cap)) ∧
    (∀ j ∈ mem, (s.client j).queue.length < (s.client j).cap →
        (Publish s e).client j = { s.client j with queue := (s.client j).queue ++ [e] } ∧
        j ∈ mem.filter fun k => decide ((s.client k).queue.length < (s.client k).cap)) := by
  rw [Publish_eq s e cid mem hcid hroom]
  dsimp only
  refine ⟨?_, ?_, ?_⟩
  · rw [updRoom_self, publishLoop_survivors e mem s.client hnd]
  · intro i hi hcap
    refine ⟨by rw [publishLoop_full e mem s.client hnd i hi hcap], ?_⟩
    intro hmem
    have := List.of_mem_filter hmem
    simp at this
    exact hcap this
  · intro j hj hcap
    refine ⟨publishLoop_spare e mem s.client hnd j hj hcap, ?_⟩
    exact List.mem_filter.mpr ⟨hj, by simpa using hcap⟩

theorem publish_slow_consumer_eviction_witness :
    objectIdFromHex evA.conversationId = some cHex ∧
    sysEx.rooms cHex = some [0, 1] ∧
    ([0, 1] : List Nat).Nodup ∧
    (Publish sysEx evA).rooms cHex = some [1] ∧
    ((Publish sysEx evA).client 0).closeScheduled = true ∧
    ((Publish sysEx evA).client 1).queue = [evA] := by
  have h1 : objectIdFromHex evA.conversationId = some cHex := by decide
  have h2 : sysEx.rooms cHex = some [0, 1] := by decide
  have h3 : ([0, 1] : List Nat).Nodup := by decide
  have hmain := publish_slow_consumer_eviction sysEx evA cHex [0, 1] h1 h2 h3
  refine ⟨h1, h2, h3, ?_, ?_, ?_⟩
  · rw [hmain.1]; decide
  · exact (hmain.2.1 0 (by decide) (by decide)).1
  · rw [(hmain.2.2 1 (by decide) (by decide)).1]; decide

/-- Claim C2: publishing an event whose conversation has no room entry
is a no-op: the whole state is returned unchanged, so no endpoint queue
is modified and no room entry is created for that conversation. -/
theorem publish_absent_room_noop (s : Sys) (e : Event)
    (h : ∀ cid, objectIdFromHex e.conversationId = some cid → s.rooms cid = none) :
    Publish s e = s ∧
    ∀ cid, objectIdFromHex e.conversationId = some cid →
      (Publish s e).rooms cid = none := by
  have hP : Publish s e = s := by
    unfold Publish
    split
    · rfl
    next cid hp =>
      split
      · rfl
      next mem hmem => rw [h cid hp] at hmem; exact Option.noConfusion hmem
  exact ⟨hP, fun cid hp => by rw [hP]; exact h cid hp⟩

theorem publish_absent_room_noop_witness :
    (∀ cid, objectIdFromHex evA.conversationId = some cid →
      sysEmpty.rooms cid = none) ∧
    Publish sysEmpty evA = sysEmpty := by
  have h : ∀ cid, objectIdFromHex evA.conversationId = some cid →
      sysEmpty.rooms cid = none := fun _ _ => rfl
  exact ⟨h, (publish_absent_room_noop sysEmpty evA h).1⟩

/-- Claim C9: publishing an event whose conversation id string is not a
valid 24-character hexadecimal object identifier returns silently with
the whole state unchanged. -/
theorem publish_invalid_hex_noop (s : Sys) (e : Event)
    (h : objectIdFromHex e.conversationId = none) : Publish s e = s := by
  unfold Publish
  split
  · rfl
  next cid hp => rw [h] at hp; exact Option.noConfusion hp

theorem publish_invalid_hex_noop_witness :
    objectIdFromHex evBad.conversationId = none ∧ Publish sysEx evBad = sysEx := by
  have h : objectIdFromHex evBad.conversationId = none := by decide
  exact ⟨h, publish_invalid_hex_noop sysEx evBad h⟩

/-- Claim C10: `Join` and `Leave` only touch the room keyed by the
client's own conversation id; every other room's entry, and the whole
client store, are left exactly as they were. -/
theorem join_leave_frame (s : Sys) (i : Nat) (k : String)
    (hk : k ≠ (s.client i).cid) :
    (Join s i).rooms k = s.rooms k ∧ (Leave s i).rooms k = s.rooms k ∧
    (Join s i).client = s.client ∧ (Leave s i).client = s.client :=
  ⟨Join_rooms_other s i k hk, Leave_rooms_other s i k hk,
    Join_client s i, Leave_client s i⟩

theorem join_leave_frame_witness :
    dHex ≠ (sysEx.client 0).cid ∧
    (Join sysEx 0).rooms dHex = sysEx.rooms dHex ∧
    (Leave sysEx 0).rooms dHex = sysEx.rooms dHex := by
  have hk : dHex ≠ (sysEx.client 0).cid := by decide
  have h := join_leave_frame sysEx 0 dHex hk
  exact ⟨hk, h.1, h.2.1⟩

/-- Helper: if deleting the client empties the member list, the room
entry itself is removed. -/
theorem Leave_empty (s : Sys) (i : Nat) (m : List Nat)
    (h : s.rooms (s.client i).cid = some m)
    (hf : m.filter (fun j => decide ¬(j = i)) = []) :
    (Leave s i).rooms (s.client i).cid = none := by
  unfold Leave
  dsimp only
  split
  next hn => rw [h] at hn; exact Option.noConfusion hn
  next m2 hm2 =>
    rw [h] at hm2
    obtain rfl : m = m2 := Option.some.inj hm2
    rw [if_pos hf]
    exact updRoom_self _ _ _

/-- State whose registry holds an empty member entry for `cHex` — the
shape `Publish` leaves behind after evicting a room's last member (the
room entry itself is not deleted by `Publish`). -/
def sysEmptyRoom : Sys :=
  { rooms := fun k => if k = cHex then some [] else none, client := envEx }

/-- State with room `cHex` holding only the saturated client 0. -/
def sysOne : Sys :=
  { rooms := fun k => if k = cHex then some [0] else none, client := envEx }

/-- Claim C3 is refuted at `sysEmptyRoom`: endpoint 5 is in no room's
member set, yet `Leave` changes the registry (it deletes the leftover
empty entry for `cHex`).  The last conjunct shows the empty-entry state
is produced by `Publish` itself when it evicts a room's last member. -/
theorem leave_absent_endpoint_counterexample :
    (∀ k m, sysEmptyRoom.rooms k = some m → (5 : Nat) ∉ m) ∧
    sysEmptyRoom.rooms cHex = some [] ∧
    (Leave sysEmptyRoom 5).rooms cHex = none ∧
    (Publish sysOne evA).rooms cHex = some [] := by
  refine ⟨?_, by decide, by decide, by decide⟩
  intro k m h
  by_cases hk : k = cHex
  · subst hk
    have : some ([] : List Nat) = some m := h
    rw [← Option.some.inj this]
    exact List.not_mem_nil 5
  · exact absurd h (by simp [sysEmptyRoom, hk])

/-- Claim C3 (amended): `leave(e)` removes `e` from the room keyed by
`e`'s conversation id; if the removal leaves the member set empty the
entry is deleted.  When `e` is not present in any room, the state is
fully unchanged — unless the registry holds an empty member entry for
`e`'s conversation (as left behind by a publish-time eviction of the
room's last member), which this `leave` then deletes. -/
theorem leave_spec (s : Sys) (i : Nat) :
    (∀ m', (Leave s i).rooms (s.client i).cid = some m' → i ∉ m') ∧
    (∀ m, s.rooms (s.client i).cid = some m →
        m.filter (fun j => decide ¬(j = i)) = [] →
        (Leave s i).rooms (s.client i).cid = none) ∧
    (s.rooms (s.client i).cid = none → Leave s i = s) ∧
    (∀ m, s.rooms (s.client i).cid = some m → i ∉ m → m ≠ [] → Leave s i = s) :=
  ⟨fun m' h => Leave_not_mem s i m' h,
   fun m h hf => Leave_empty s i m h hf,
   Leave_noop_none s i,
   fun m h hi hne => Leave_noop_notmem s i m h hi hne⟩

theorem leave_spec_witness :
    (Leave sysEx 0).rooms (sysEx.client 0).cid = some [1] ∧
    (0 : Nat) ∉ ([1] : List Nat) ∧
    sysEmpty.rooms (sysEmpty.client 0).cid = none ∧
    Leave sysEmpty 0 = sysEmpty := by
  have h1 : (Leave sysEx 0).rooms (sysEx.client 0).cid = some [1] := by decide
  exact ⟨h1, (leave_spec sysEx 0).1 [1] h1, rfl, (leave_spec sysEmpty 0).2.2.1 rfl⟩

/-- Claim C5: two sequential, non-concurrent publishes of `eA` then
`eB` on the same conversation leave a joined endpoint with spare
capacity for two events with `eA` before `eB` in its outbound FIFO
queue. -/
theorem publish_publish_fifo (s : Sys) (eA eB : Event) (cid : String)
    (mem : List Nat) (j : Nat)
    (hA : objectIdFromHex eA.conversationId = some cid)
    (hB : objectIdFromHex eB.conversationId = some cid)
    (hroom : s.rooms cid = some mem) (hnd : mem.Nodup) (hj : j ∈ mem)
    (hcap : (s.client j).queue.length + 2 ≤ (s.client j).cap) :
    ((Publish (Publish s eA) eB).client j).queue =
      (s.client j).queue ++ [eA, eB] := by
  have hcap1 : (s.client j).queue.length < (s.client j).cap := by omega
  have h1rooms : (Publish s eA).rooms cid =
      some (mem.filter fun k => decide ((s.client k).queue.length < (s.client k).cap)) := by
    rw [Publish_eq s eA cid mem hA hroom]
    dsimp only
    rw [updRoom_self, publishLoop_survivors eA mem s.client hnd]
  have h1client : (Publish s eA).client j =
      { s.client j with queue := (s.client j).queue ++ [eA] } := by
    rw [Publish_eq s eA cid mem hA hroom]
    dsimp only
    exact publishLoop_spare eA mem s.client hnd j hj hcap1
  have hnd1 : (mem.filter fun k =>
      decide ((s.client k).queue.length < (s.client k).cap)).Nodup :=
    List.Nodup.filter _ hnd
  have hj1 : j ∈ mem.filter fun k =>
      decide ((s.client k).queue.length < (s.client k).cap) :=
    List.mem_filter.mpr ⟨hj, by simpa using hcap1⟩
  have hcap2 : ((Publish s eA).client j).queue.length < ((Publish s eA).client j).cap := by
    rw [h1client]
    simp
    omega
  have h2 := publishLoop_spare eB _ (Publish s eA).client hnd1 j hj1 hcap2
  rw [Publish_eq (Publish s eA) eB cid _ hB h1rooms]
  dsimp only
  rw [h2, h1client]
  simp

theorem publish_publish_fifo_witness :
    objectIdFromHex evA.conversationId = some cHex ∧
    objectIdFromHex evB.conversationId = some cHex ∧
    sysEx.rooms cHex = some [0, 1] ∧
    ([0, 1] : List Nat).Nodup ∧ (1 : Nat) ∈ ([0, 1] : List Nat) ∧
    (sysEx.client 1).queue.length + 2 ≤ (sysEx.client 1).cap ∧
    ((Publish (Publish sysEx evA) evB).client 1).queue = [evA, evB] := by
  refine ⟨by decide, by decide, by decide, by decide, by decide, by decide, ?_⟩
  have h := publish_publish_fifo sysEx evA evB cHex [0, 1] 1
    (by decide) (by decide) (by decide) (by decide) (by decide) (by decide)
  rw [h]
  decide

/-! ### Replay of join/leave sequences (claim C4) -/

theorem memOf_none (s : Sys) (k : String) (h : s.rooms k = none) : memOf s k = [] := by
  unfold memOf
  rw [h]

theorem memOf_some (s : Sys) (k : String) (m : List Nat) (h : s.rooms k = some m) :
    memOf s k = m := by
  unfold memOf
  rw [h]

/-- Helper: when deleting the client leaves the member list nonempty,
the entry keeps exactly the filtered list. -/
theorem Leave_nonempty (s : Sys) (i : Nat) (m : List Nat)
    (h : s.rooms (s.client i).cid = some m)
    (hf : m.filter (fun j => decide ¬(j = i)) ≠ []) :
    (Leave s i).rooms (s.client i).cid =
      some (m.filter fun j => decide ¬(j = i)) := by
  unfold Leave
  dsimp only
  split
  next hn => rw [h] at hn; exact Option.noConfusion hn
  next m2 hm2 =>
    rw [h] at hm2
    obtain rfl : m = m2 := Option.some.inj hm2
    rw [if_neg hf]
    exact updRoom_self _ _ _

/-- The member list of the client's own room after `Join`. -/
theorem Join_memOf (s : Sys) (i : Nat) :
    memOf (Join s i) ((s.client i).cid) =
      if i ∈ memOf s ((s.client i).cid) then memOf s ((s.client i).cid)
      else memOf s ((s.client i).cid) ++ [i] := by
  unfold Join memOf
  dsimp only
  rw [updRoom_self]

/-- The member list of the client's own room after `Leave`. -/
theorem Leave_memOf (s : Sys) (i : Nat) :
    memOf (Leave s i) ((s.client i).cid) =
      (memOf s ((s.client i).cid)).filter fun j => decide ¬(j = i) := by
  cases hr : s.rooms (s.client i).cid with
  | none =>
    rw [Leave_noop_none s i hr, memOf_none s _ hr]
    rfl
  | some m =>
    by_cases hf : m.filter (fun j => decide ¬(j = i)) = []
    · rw [memOf_none _ _ (Leave_empty s i m hr hf), memOf_some s _ m hr, hf]
    · rw [memOf_some _ _ _ (Leave_nonempty s i m hr hf), memOf_some s _ m hr]

/-- A replayable registry operation. -/
inductive ROp where
  | opJoin (i : Nat)
  | opLeave (i : Nat)
deriving DecidableEq, Repr

/-- The client identity an operation concerns. -/
def ROp.idx : ROp → Nat
  | .opJoin i => i
  | .opLeave i => i

/-- Replay a sequence of join/leave operations against the registry. -/
def replay (s : Sys) : List ROp → Sys
  | [] => s
  | .opJoin i :: rest => replay (Join s i) rest
  | .opLeave i :: rest => replay (Leave s i) rest

/-- The spec's "net effect" of a join/leave sequence, written from the
spec's words: starting from an accumulator, a join inserts the endpoint
into the set and a leave removes it. -/
def netMembers (ops : List ROp) (acc : Finset Nat) : Finset Nat :=
  match ops with
  | [] => acc
  | .opJoin i :: rest => netMembers rest (insert i acc)
  | .opLeave i :: rest => netMembers rest (acc.erase i)

theorem replay_net_aux (c : String) (ops : List ROp) :
    ∀ (s : Sys) (A : Finset Nat),
      (∀ op ∈ ops, (s.client op.idx).cid = c) →
      (memOf s c).Nodup →
      (∀ i, i ∈ memOf s c ↔ i ∈ A) →
      (memOf (replay s ops) c).Nodup ∧
      ∀ i, i ∈ memOf (replay s ops) c ↔ i ∈ netMembers ops A := by
  induction ops with
  | nil =>
    intro s A _ hnd hA
    exact ⟨hnd, fun i => by rw [netMembers]; exact hA i⟩
  | cons op rest ih =>
    intro s A hops hnd hA
    cases op with
    | opJoin i =>
      have hc : (s.client i).cid = c := hops _ (List.mem_cons_self _ _)
      have hm : memOf (Join s i) c =
          if i ∈ memOf s c then memOf s c else memOf s c ++ [i] := by
        rw [← hc]
        exact Join_memOf s i
      rw [replay, netMembers]
      apply ih (Join s i) (insert i A)
      · intro op2 hop2
        rw [Join_client]
        exact hops op2 (List.mem_cons_of_mem _ hop2)
      · rw [hm]
        by_cases him : i ∈ memOf s c
        · rw [if_pos him]; exact hnd
        · rw [if_neg him]
          rw [List.nodup_append]
          exact ⟨hnd, List.nodup_singleton i, by
            intro a ha hai
            rw [List.mem_singleton] at hai
            exact him (hai ▸ ha)⟩
      · intro j
        rw [hm]
        by_cases him : i ∈ memOf s c
        · rw [if_pos him]
          constructor
          · intro h
            exact Finset.mem_insert.mpr (Or.inr ((hA j).mp h))
          · intro h
            rcases Finset.mem_insert.mp h with h | h
            · exact h ▸ him
            · exact (hA j).mpr h
        · rw [if_neg him]
          rw [List.mem_append, List.mem_singleton, Finset.mem_insert]
          constructor
          · rintro (h | h)
            · exact Or.inr ((hA j).mp h)
            · exact Or.inl h
          · rintro (h | h)
            · exact Or.inr h
            · exact Or.inl ((hA j).mpr h)
    | opLeave i =>
      have hc : (s.client i).cid = c := hops _ (List.mem_cons_self _ _)
      have hm : memOf (Leave s i) c =
          (memOf s c).filter fun j => decide ¬(j = i) := by
        rw [← hc]
        exact Leave_memOf s i
      rw [replay, netMembers]
      apply ih (Leave s i) (A.erase i)
      · intro op2 hop2
        rw [Leave_client]
        exact hops op2 (List.mem_cons_of_mem _ hop2)
      · rw [hm]
        exact List.Nodup.filter _ hnd
      · intro j
        rw [hm, List.mem_filter, Finset.mem_erase]
        constructor
        · rintro ⟨h1, h2⟩
          simp at h2
          exact ⟨h2, (hA j).mp h1⟩
        · rintro ⟨h1, h2⟩
          exact ⟨(hA j).mpr h2, by simpa using h1⟩

/-- Claim C4: for every finite sequence of join/leave operations on
endpoints of the same conversation, starting from the empty registry,
the room's member list after replay is duplicate-free and holds exactly
the net effect of the sequence (joins minus subsequent leaves); a
repeated join of the same endpoint leaves the set unchanged. -/
theorem replay_net_effect (env : Nat → ClientSt) (c : String) (ops : List ROp)
    (hc : ∀ op ∈ ops, (env op.idx).cid = c) :
    (memOf (replay ⟨fun _ => none, env⟩ ops) c).Nodup ∧
    ∀ i, i ∈ memOf (replay ⟨fun _ => none, env⟩ ops) c ↔ i ∈ netMembers ops ∅ := by
  apply replay_net_aux c ops ⟨fun _ => none, env⟩ ∅ hc
  · rw [memOf_none _ _ rfl]
    exact List.nodup_nil
  · intro i
    rw [memOf_none _ _ rfl]
    simp

theorem replay_net_effect_witness :
    (∀ op ∈ ([ROp.opJoin 1, ROp.opJoin 2, ROp.opJoin 1, ROp.opLeave 2] : List ROp),
      ((fun _ => clientSpare : Nat → ClientSt) op.idx).cid = cHex) ∧
    (1 : Nat) ∈ memOf (replay ⟨fun _ => none, fun _ => clientSpare⟩
      [ROp.opJoin 1, ROp.opJoin 2, ROp.opJoin 1, ROp.opLeave 2]) cHex := by
  have hc : ∀ op ∈ ([ROp.opJoin 1, ROp.opJoin 2, ROp.opJoin 1, ROp.opLeave 2] : List ROp),
      ((fun _ => clientSpare : Nat → ClientSt) op.idx).cid = cHex := by decide
  refine ⟨hc, ?_⟩
  exact ((replay_net_effect (fun _ => clientSpare) cHex _ hc).2 1).mpr (by decide)

/-! ### Connection handshake (WSHandler, claim C6)

The JWT verifier and the Mongo-backed membership oracle are external
collaborators of this subsystem; they enter the model as function
parameters (`verify`, `member`), and the transport upgrade's outcome as
a boolean parameter. -/

/-- The token claims carried by a verified JWT (`type Claims struct`). -/
structure TokenClaims where
  userId : String
  username : String
deriving DecidableEq, Repr

/-- Models `parseBearer`: the Authorization header must be at least 8
characters and start with the literal `Bearer` prefix plus a space; the
remainder is handed to the JWT verifier. -/
def parseBearer (verify : String → Option TokenClaims) (h : String) :
    Option TokenClaims :=
  if h.data.length < 8 || ¬(h.data.take 7 = "Bearer ".data) then none
  else verify (String.mk (h.data.drop 7))

/-- Models `parseBearerOrQuery`: try the Authorization header first,
then fall back to the `?token=` query parameter; an empty query token is
a failure. -/
def parseBearerOrQuery (verify : String → Option TokenClaims) (h q : String) :
    Option TokenClaims :=
  match parseBearer verify h with
  | some cl => some cl
  | none => if q = "" then none else verify q

/-- Outcome of one connection attempt on the upgrade endpoint. -/
inductive HSResult where
  | unauthorized
  | badRequest
  | forbidden
  | internalError
  | upgradeFailed
  | joined (i : Nat)
deriving DecidableEq, Repr

/-- Models the body of `WSHandler` for one request: credential parse
(header, query fallback), user-id parse, conversation-id parse,
membership check, transport upgrade, then allocation of the endpoint
(fresh identity, empty 32-slot outbound queue) and `Join`. -/
def wsHandler (verify : String → Option TokenClaims)
    (member : String → String → Except Unit Bool)
    (authHeader queryToken cidParam : String)
    (upgradeOk : Bool) (freshId : Nat) (s : Sys) : HSResult × Sys :=
  match parseBearerOrQuery verify authHeader queryToken with
  | none => (.unauthorized, s)
  | some claims =>
    match objectIdFromHex claims.userId with
    | none => (.unauthorized, s)
    | some uid =>
      match objectIdFromHex cidParam with
      | none => (.badRequest, s)
      | some cid =>
        match member cid uid with
        | .error _ => (.internalError, s)
        | .ok false => (.forbidden, s)
        | .ok true =>
          if upgradeOk then
            let cl : ClientSt :=
              { uid := uid, cid := cid, queue := [], cap := 32, closeScheduled := false }
            let s1 : Sys := { s with client := updClient s.client freshId cl }
            (.joined freshId, Join s1 freshId)
          else (.upgradeFailed, s)

/-- Claim C6: a missing or invalid bearer credential is rejected
unauthorized, a malformed conversation identifier bad-request, and an
authenticated non-member forbidden; each rejection happens before the
upgrade (the outcome does not depend on the upgrade parameter, which is
universally quantified) and returns the whole state unchanged, so no
room gains an entry and no outbound queue is allocated. -/
theorem wsHandler_reject_paths (verify : String → Option TokenClaims)
    (member : String → String → Except Unit Bool)
    (h q cidP : String) (up : Bool) (fid : Nat) (s : Sys) :
    (parseBearerOrQuery verify h q = none →
      wsHandler verify member h q cidP up fid s = (.unauthorized, s)) ∧
    (∀ cl, parseBearerOrQuery verify h q = some cl →
      objectIdFromHex cl.userId = none →
      wsHandler verify member h q cidP up fid s = (.unauthorized, s)) ∧
    (∀ cl uid, parseBearerOrQuery verify h q = some cl →
      objectIdFromHex cl.userId = some uid →
      objectIdFromHex cidP = none →
      wsHandler verify member h q cidP up fid s = (.badRequest, s)) ∧
    (∀ cl uid cid, parseBearerOrQuery verify h q = some cl →
      objectIdFromHex cl.userId = some uid →
      objectIdFromHex cidP = some cid →
      member cid uid = .ok false →
      wsHandler verify member h q cidP up fid s = (.forbidden, s)) := by
  refine ⟨?_, ?_, ?_, ?_⟩
  · intro hp
    unfold wsHandler
    rw [hp]
  · intro cl hp hu
    unfold wsHandler
    rw [hp]
    dsimp only
    rw [hu]
  · intro cl uid hp hu hc
    unfold wsHandler
    rw [hp]
    dsimp only
    rw [hu]
    dsimp only
    rw [hc]
  · intro cl uid cid hp hu hc hm
    unfold wsHandler
    rw [hp]
    dsimp only
    rw [hu]
    dsimp only
    rw [hc]
    dsimp only
    rw [hm]

/-- A verifier accepting exactly the token string `tok`. -/
def verifyEx : String → Option TokenClaims :=
  fun t => if t = "tok" then some { userId := dHex, username := "alice" } else none

/-- A membership oracle answering "not a member" for everyone. -/
def memberNo : String → String → Except Unit Bool := fun _ _ => .ok false

theorem wsHandler_reject_paths_witness :
    parseBearerOrQuery verifyEx "" "" = none ∧
    wsHandler verifyEx memberNo "" "" cHex true 7 sysEmpty =
      (.unauthorized, sysEmpty) ∧
    parseBearerOrQuery verifyEx "Bearer tok" "" =
      some { userId := dHex, username := "alice" } ∧
    objectIdFromHex dHex = some dHex ∧
    objectIdFromHex cHex = some cHex ∧
    memberNo cHex dHex = .ok false ∧
    wsHandler verifyEx memberNo "Bearer tok" "" cHex true 7 sysEmpty =
      (.forbidden, sysEmpty) := by
  have h1 : parseBearerOrQuery verifyEx "" "" = none := by decide
  have h2 : parseBearerOrQuery verifyEx "Bearer tok" "" =
      some { userId := dHex, username := "alice" } := by decide
  have h3 : objectIdFromHex dHex = some dHex := by decide
  have h4 : objectIdFromHex cHex = some cHex := by decide
  have h5 : memberNo cHex dHex = .ok false := rfl
  refine ⟨h1, ?_, h2, h3, h4, h5, ?_⟩
  · exact (wsHandler_reject_paths verifyEx memberNo "" "" cHex true 7 sysEmpty).1 h1
  · exact (wsHandler_reject_paths verifyEx memberNo "Bearer tok" "" cHex true 7
      sysEmpty).2.2.2 _ dHex cHex h2 h3 h4 h5

/-! ### Synchronization discipline of the registry (claim C7)

The three registry operations' lock acquisitions are static facts of the
source: `Join` and `Leave` take `b.mu.Lock()`, `Publish` takes
`b.mu.RLock()`.  Under Go's `sync.RWMutex`, two read-lock holders run
concurrently; only an exclusive acquisition excludes other holders. -/

/-- The two acquisition modes of `sync.RWMutex`. -/
inductive LockMode where
  | readShared
  | exclusive
deriving DecidableEq, Repr

/-- `Broadcaster.Join` acquires `b.mu.Lock()`. -/
def joinLockMode : LockMode := .exclusive

/-- `Broadcaster.Leave` acquires `b.mu.Lock()`. -/
def leaveLockMode : LockMode := .exclusive

/-- `Broadcaster.Publish` acquires `b.mu.RLock()`. -/
def publishLockMode : LockMode := .readShared

/-- Whether two RWMutex acquisitions exclude each other: they do unless
both are shared reads. -/
def lockExcludes : LockMode → LockMode → Bool
  | .exclusive, _ => true
  | _, .exclusive => true
  | .readShared, .readShared => false

/-- Decides whether `Publish` mutates the room's member set, i.e.
whether its slow-consumer eviction path fires: some member of the
target room has a full queue. -/
def publishMutatesRoom (s : Sys) (e : Event) : Bool :=
  match objectIdFromHex e.conversationId with
  | none => false
  | some cid =>
    match s.rooms cid with
    | none => false
    | some mem => mem.any fun i => !((s.client i).queue.length < (s.client i).cap)

/-- Claim C7 is contradicted by the code: at a concrete reachable state,
`Publish` mutates the room's member set (the eviction `delete(m, cl)`,
shown by the membership actually changing) while holding only the
shared read lock, and two shared-read acquisitions do not exclude each
other — so two publishes against the same room are not mutually
exclusive with respect to set mutation. -/
theorem publish_mutation_not_exclusive :
    publishMutatesRoom sysOne evA = true ∧
    memOf sysOne cHex = [0] ∧
    memOf (Publish sysOne evA) cHex = [] ∧
    publishLockMode = LockMode.readShared ∧
    lockExcludes publishLockMode publishLockMode = false ∧
    joinLockMode = LockMode.exclusive ∧
    leaveLockMode = LockMode.exclusive := by
  decide

/-! ### Connection teardown (claim C8)

In `WSHandler`, the writer goroutine and the reader goroutine each carry
their own deferred cleanup `broadcaster.Leave(cl); cl.conn.Close()`.
Closing the transport makes the other loop's blocking call fail, so once
a connection ends, both deferred blocks execute — there is no
once-guard.  The model records teardown as a list of actions applied to
the state. -/

/-- One teardown action: `actLeave` is `broadcaster.Leave(cl)`,
`actClose` marks the transport closed (`cl.conn.Close()`). -/
inductive TAction where
  | actLeave (i : Nat)
  | actClose (i : Nat)
deriving DecidableEq, Repr

/-- Effect of a teardown action on the state. -/
def applyAction (s : Sys) : TAction → Sys
  | .actLeave i => Leave s i
  | .actClose i =>
    { s with client := updClient s.client i { s.client i with closeScheduled := true } }

/-- Run a list of teardown actions left to right. -/
def runActions (s : Sys) (l : List TAction) : Sys := l.foldl applyAction s

/-- The deferred cleanup block shared by the writer and the reader
loop. -/
def loopCleanup (i : Nat) : List TAction := [.actLeave i, .actClose i]

/-- The teardown actions a connection undergoes once it ends: the writer
loop's deferred cleanup and the reader loop's deferred cleanup both
execute. -/
def connectionExitActions (i : Nat) : List TAction := loopCleanup i ++ loopCleanup i

/-- Helper: a room entry surviving a `Leave` is never empty (`Leave`
deletes emptied entries). -/
theorem Leave_some_ne_nil (s : Sys) (i : Nat) (m' : List Nat)
    (h : (Leave s i).rooms (s.client i).cid = some m') : m' ≠ [] := by
  unfold Leave at h
  dsimp only at h
  split at h
  next hn => rw [hn] at h; exact Option.noConfusion h
  next m hm =>
    split at h
    · simp [updRoom_self] at h
    next hf =>
      simp [updRoom_self] at h
      subst h
      simpa using hf

/-- Helper: a second `Leave` of the same client, from any state with the
same room map and the same conversation id for that client, is a
no-op. -/
theorem Leave_again_noop (s : Sys) (i : Nat) (s2 : Sys)
    (hrooms : s2.rooms = (Leave s i).rooms)
    (hcid : (s2.client i).cid = (s.client i).cid) :
    Leave s2 i = s2 := by
  cases h2 : (Leave s i).rooms ((s.client i).cid) with
  | none =>
    apply Leave_noop_none
    rw [hcid, hrooms]
    exact h2
  | some m' =>
    exact Leave_noop_notmem s2 i m' (by rw [hcid, hrooms]; exact h2)
      (Leave_not_mem s i m' h2) (Leave_some_ne_nil s i m' h2)

/-- Helper: re-marking an already-scheduled close changes nothing. -/
theorem ClientSt_close_already (c : ClientSt) (h : c.closeScheduled = true) :
    { c with closeScheduled := true } = c := by
  cases c
  simp_all

/-- Helper: closing a transport whose close is already scheduled is a
no-op on the state. -/
theorem close_idem (s : Sys) (i : Nat) (h : (s.client i).closeScheduled = true) :
    applyAction s (TAction.actClose i) = s := by
  show { s with client := updClient s.client i { s.client i with closeScheduled := true } } = s
  apply Sys.ext
  · rfl
  · funext j
    by_cases hj : j = i
    · subst hj
      exact (updClient_self _ _ _).trans (ClientSt_close_already _ h)
    · exact updClient_other _ _ _ _ hj

/-- Claim C8 is refuted on the handler's structure: the teardown pair
(leave, then close) is executed once by each of the two loops' deferred
cleanup blocks, so the leave runs twice per connection — not exactly
once; there is no once-guard in the handler. -/
theorem teardown_twice_counterexample :
    (connectionExitActions 0).count (TAction.actLeave 0) = 2 ∧
    (connectionExitActions 0).count (TAction.actClose 0) = 2 ∧
    ¬((connectionExitActions 0).count (TAction.actLeave 0) = 1) := by
  decide

/-- Claim C8 (amended): teardown is executed once by each of the two
loops — up to twice per connection rather than exactly once — and this
is safe: `Leave` is idempotent and re-closing is a no-op, so running
both loops' cleanups has exactly the effect of a single teardown, on
every state (in particular also after a registry-initiated eviction has
already removed the endpoint and closed its transport). -/
theorem teardown_net_effect (s : Sys) (i : Nat) :
    runActions s (connectionExitActions i) = runActions s (loopCleanup i) := by
  have h2 : (applyAction (Leave s i) (TAction.actClose i)).client i =
      { s.client i with closeScheduled := true } := by
    show updClient (Leave s i).client i
      { (Leave s i).client i with closeScheduled := true } i = _
    rw [updClient_self, Leave_client]
  have hLeave : Leave (applyAction (Leave s i) (TAction.actClose i)) i =
      applyAction (Leave s i) (TAction.actClose i) :=
    Leave_again_noop s i _ rfl (by rw [h2])
  have hclose : applyAction (applyAction (Leave s i) (TAction.actClose i))
      (TAction.actClose i) = applyAction (Leave s i) (TAction.actClose i) :=
    close_idem _ i (by rw [h2])
  show applyAction (Leave (applyAction (Leave s i) (TAction.actClose i)) i)
      (TAction.actClose i) = applyAction (Leave s i) (TAction.actClose i)
  rw [hLeave, hclose]

end IMGui
